import Mathlib

/-!
Shallow embedding of the persistence-and-reconciliation engine of
vscode-better-sidebar-markdown-notes (src/storageService.ts, two variants,
and src/migrationService.ts).

Modelling conventions:
* ISO-8601 timestamp strings are modelled by their epoch-millisecond value
  (an `Int`); `new Date(s).getTime()` is order-isomorphic on valid ISO
  strings, and the engine only ever compares or regenerates timestamps.
* JS numbers used as indices/counters are modelled as `Int` where negative
  values can occur (`currentPage`), `Nat` where they cannot (`maxBackups`).
* The notes file on disk is modelled by its parsed JSON value plus an mtime;
  `JSON.stringify` of structurally equal objects yields equal bytes, so byte
  equality of written files is modelled by equality of the written values.
* Async fs operations are modelled as state transitions on `FsState`; a
  thrown error is an `Except.error` carried next to the (already mutated)
  state, since JS exceptions do not roll state back.
* The mutual recursion between `loadNotes` and `saveNotes` (the timestamp
  conflict branch of save re-loads; the bookmark self-heal branch of load
  re-saves) is made total with an explicit fuel parameter; running out of
  fuel is a distinguished error that no real execution path hits.
-/

deriving instance DecidableEq for Except

namespace SidebarNotes

/-- `state: 'editor' | 'render'` in storageService.ts. -/
inductive UiState where
  | editor
  | render
deriving DecidableEq

/-- `syncStatus?: 'synced' | 'pending' | 'conflict'`. -/
inductive SyncStatus where
  | synced
  | pending
  | conflict
deriving DecidableEq

/-- `NotesData.metadata` of the newer StorageService variant; the older
variant's interface merely lacks the optional `fileModTime` entry. -/
structure NotesMetadata where
  totalPages : Int
  createdAt : Int
  syncStatus : Option SyncStatus
  fileModTime : Option Int
deriving DecidableEq

/-- The `NotesData` interface (canonical document). `bookmarks` is optional
in the source (`bookmarks?: boolean[]`). -/
structure NotesData where
  version : Int
  lastModified : Int
  deviceId : String
  state : UiState
  currentPage : Int
  pages : List String
  bookmarks : Option (List Bool)
  metadata : NotesMetadata
deriving DecidableEq

/-- The `LegacyNotesData` interface; `version` is absent or a number in the
legacy JSON, so it is an `Option Int` here. -/
structure LegacyNotesData where
  state : UiState
  currentPage : Int
  pages : List String
  version : Option Int
deriving DecidableEq

/-- Parsed JSON content of the notes file (or of a backup file): either the
canonical shape or the legacy shape. -/
inductive FileJson where
  | canonical (d : NotesData)
  | legacy (l : LegacyNotesData)
deriving DecidableEq

/-- The notes file on disk: parsed content plus modification time. -/
structure NotesFile where
  json : FileJson
  mtimeMs : Int
deriving DecidableEq

/-- One file in the backup directory. -/
structure BackupEntry where
  name : String
  mtime : Int
  json : FileJson
deriving DecidableEq

/-- The filesystem state the engine touches: the notes file (if present)
and the backup directory contents. -/
structure FsState where
  notesFile : Option NotesFile
  backupDir : List BackupEntry
deriving DecidableEq

/-- Mutable StorageService state: the mtime watermark (`lastKnownModTime`,
initialised to 0 = unset). -/
structure Store where
  lastKnownModTime : Int
deriving DecidableEq

/-- `sync.conflictResolution` configuration. -/
inductive ConflictPolicy where
  | timestamp
  | manual
deriving DecidableEq

/-- The configuration surface the engine reads (src/config.ts). -/
structure Config where
  backupEnabled : Bool
  maxBackups : Nat
  conflictResolution : ConflictPolicy
deriving DecidableEq

/-- Errors thrown by the engine; `outOfFuel` is an artefact of the fuel
parameter, not of the source. -/
inductive EngineError where
  | invalidFormat
  | conflictDetected
  | conflictExternalNewer
  | outOfFuel
deriving DecidableEq

/-! ## Page deduplication: `Array.from(new Set([...a, ...b]))`

A JS `Set` keeps the first insertion of each element and iterates in
insertion order; `dedupAux` threads the set of already-seen strings. -/

/-- Walk the list, dropping any string already seen (JS `Set` insertion). -/
def dedupAux : List String → List String → List String
  | _, [] => []
  | seen, x :: xs => if x ∈ seen then dedupAux seen xs else x :: dedupAux (x :: seen) xs

/-- `Array.from(new Set(l))`: first occurrences, in encounter order. -/
def dedupKeepFirst (l : List String) : List String :=
  dedupAux [] l

theorem mem_dedupAux (a : String) :
    ∀ (l seen : List String), a ∈ dedupAux seen l ↔ a ∈ l ∧ a ∉ seen := by
  intro l
  induction l with
  | nil => intro seen; simp [dedupAux]
  | cons x xs ih =>
    intro seen
    by_cases hx : x ∈ seen
    · rw [dedupAux, if_pos hx, ih]
      constructor
      · rintro ⟨h1, h2⟩
        exact ⟨List.mem_cons_of_mem _ h1, h2⟩
      · rintro ⟨h1, h2⟩
        rcases List.mem_cons.mp h1 with he | hm
        · exact absurd (he ▸ hx) h2
        · exact ⟨hm, h2⟩
    · rw [dedupAux, if_neg hx]
      constructor
      · intro h
        rcases List.mem_cons.mp h with he | hm
        · subst he; exact ⟨List.mem_cons_self .., hx⟩
        · rcases (ih (x :: seen)).mp hm with ⟨h1, h2⟩
          exact ⟨List.mem_cons_of_mem _ h1, fun hs => h2 (List.mem_cons_of_mem _ hs)⟩
      · rintro ⟨h1, h2⟩
        rcases List.mem_cons.mp h1 with he | hm
        · exact he ▸ List.mem_cons_self ..
        · by_cases hax : a = x
          · exact hax ▸ List.mem_cons_self ..
          · refine List.mem_cons_of_mem _ ((ih (x :: seen)).mpr ⟨hm, ?_⟩)
            intro hs
            rcases List.mem_cons.mp hs with h | h
            · exact hax h
            · exact h2 h

theorem length_dedupAux_le : ∀ (l seen : List String), (dedupAux seen l).length ≤ l.length := by
  intro l
  induction l with
  | nil => intro seen; simp [dedupAux]
  | cons x xs ih =>
    intro seen
    rw [dedupAux]
    split
    · exact Nat.le_succ_of_le (ih seen)
    · simpa using Nat.succ_le_succ (ih (x :: seen))

theorem nodup_dedupAux : ∀ (l seen : List String), (dedupAux seen l).Nodup := by
  intro l
  induction l with
  | nil => intro seen; simp [dedupAux]
  | cons x xs ih =>
    intro seen
    rw [dedupAux]
    split
    · exact ih seen
    · refine List.nodup_cons.mpr ⟨fun hmem => ?_, ih (x :: seen)⟩
      exact ((mem_dedupAux x xs (x :: seen)).mp hmem).2 (List.mem_cons_self ..)

theorem nodup_dedupKeepFirst (l : List String) : (dedupKeepFirst l).Nodup :=
  nodup_dedupAux l []

theorem mem_dedupKeepFirst (a : String) (l : List String) :
    a ∈ dedupKeepFirst l ↔ a ∈ l := by
  rw [dedupKeepFirst, mem_dedupAux]
  simp

theorem length_dedupKeepFirst_le (l : List String) :
    (dedupKeepFirst l).length ≤ l.length :=
  length_dedupAux_le l []

theorem toFinset_dedupKeepFirst (l : List String) :
    (dedupKeepFirst l).toFinset = l.toFinset := by
  ext a
  simp [List.mem_toFinset, mem_dedupKeepFirst]

theorem length_le_dedupKeepFirst_append_left (l₁ l₂ : List String) (h : l₁.Nodup) :
    l₁.length ≤ (dedupKeepFirst (l₁ ++ l₂)).length := by
  have h1 : l₁.length = l₁.toFinset.card := (List.toFinset_card_of_nodup h).symm
  have h2 : (dedupKeepFirst (l₁ ++ l₂)).length = (l₁ ++ l₂).toFinset.card := by
    rw [← toFinset_dedupKeepFirst]
    exact (List.toFinset_card_of_nodup (nodup_dedupKeepFirst _)).symm
  rw [h1, h2, List.toFinset_append]
  exact Finset.card_le_card Finset.subset_union_left

theorem length_le_dedupKeepFirst_append_right (l₁ l₂ : List String) (h : l₂.Nodup) :
    l₂.length ≤ (dedupKeepFirst (l₁ ++ l₂)).length := by
  have h1 : l₂.length = l₂.toFinset.card := (List.toFinset_card_of_nodup h).symm
  have h2 : (dedupKeepFirst (l₁ ++ l₂)).length = (l₁ ++ l₂).toFinset.card := by
    rw [← toFinset_dedupKeepFirst]
    exact (List.toFinset_card_of_nodup (nodup_dedupKeepFirst _)).symm
  rw [h1, h2, List.toFinset_append]
  exact Finset.card_le_card Finset.subset_union_right

/-! ## MergeEngine: `StorageService.mergeNotes` -/

/-- The bookmark-preservation pass of `mergeNotes`: for each page of `src`
whose bookmark flag is set, mark the corresponding index of the merged
bookmark array (`pageIndexMap.get(page)`; `allPages` is duplicate-free, so
the map lookup is the first matching index). A `src.bookmarks` entry read
beyond the array's end is `undefined`, hence falsy. -/
def mergeBookmarksFrom (allPages : List String) (src : NotesData) (bm : List Bool) : List Bool :=
  match src.bookmarks with
  | none => bm
  | some sbs =>
      src.pages.enum.foldl (fun acc p =>
        match allPages.findIdx? (fun q => q == p.2) with
        | some newIdx => if sbs.getD p.1 false then acc.set newIdx true else acc
        | none => acc) bm

/-- `StorageService.mergeNotes` (newer variant). `now` stands for the
`new Date()` taken during the call; the `createdAt` fallback mirrors the JS
`||` (the Int 0 models the falsy empty string). -/
def mergeNotes (deviceId : String) (now : Int) (localData remoteData : NotesData) : NotesData :=
  let allPages := dedupKeepFirst (localData.pages ++ remoteData.pages)
  let localTime := localData.lastModified
  let remoteTime := remoteData.lastModified
  let newerData := if localTime > remoteTime then localData else remoteData
  let baseBookmarks := List.replicate allPages.length false
  let mergedBookmarks :=
    mergeBookmarksFrom allPages remoteData (mergeBookmarksFrom allPages localData baseBookmarks)
  { version := max localData.version remoteData.version
    lastModified := now
    deviceId := deviceId
    state := newerData.state
    currentPage := min newerData.currentPage ((allPages.length : Int) - 1)
    pages := allPages
    bookmarks := some mergedBookmarks
    metadata := {
      totalPages := (allPages.length : Int)
      createdAt := if localData.metadata.createdAt = 0 then remoteData.metadata.createdAt
                   else localData.metadata.createdAt
      syncStatus := some .synced
      fileModTime := none } }

/-- Spec-side description of merge step 1 ("iterate `local.pages` then
`remote.pages`, keeping the first occurrence of each exact-content page
string, preserving that encounter order"): keep each element, stripping all
later duplicates of it. Stated over the concatenated iteration sequence. -/
def specFirstOccurrence : List String → List String
  | [] => []
  | x :: xs => x :: (specFirstOccurrence xs).filter (fun y => y != x)

theorem dedupAux_eq_spec_filter :
    ∀ (l seen : List String),
      dedupAux seen l = (specFirstOccurrence l).filter (fun y => decide (y ∉ seen)) := by
  intro l
  induction l with
  | nil => intro seen; simp [dedupAux, specFirstOccurrence]
  | cons x xs ih =>
    intro seen
    rw [specFirstOccurrence, List.filter_cons]
    by_cases hx : x ∈ seen
    · have hb : (decide (x ∉ seen)) = false := by simp [hx]
      rw [dedupAux, if_pos hx, ih seen, hb, if_neg (by simp), List.filter_filter]
      refine List.filter_congr ?_
      intro y _
      by_cases hyx : y = x
      · subst hyx; simp [hx]
      · simp [hyx]
    · have hb : (decide (x ∉ seen)) = true := by simp [hx]
      rw [dedupAux, if_neg hx, ih (x :: seen), hb, if_pos rfl, List.filter_filter]
      congr 1
      refine List.filter_congr ?_
      intro y _
      by_cases hyx : y = x
      · subst hyx; simp
      · simp [hyx, List.mem_cons]

theorem dedupKeepFirst_eq_spec (l : List String) :
    dedupKeepFirst l = specFirstOccurrence l := by
  rw [dedupKeepFirst, dedupAux_eq_spec_filter]
  apply List.filter_eq_self.mpr
  intro a _
  simp

theorem length_foldl_preserve {α : Type} (f : List Bool → α → List Bool)
    (hf : ∀ acc a, (f acc a).length = acc.length) :
    ∀ (l : List α) (acc : List Bool), (List.foldl f acc l).length = acc.length := by
  intro l
  induction l with
  | nil => intro acc; rfl
  | cons x xs ih =>
    intro acc
    rw [List.foldl_cons, ih, hf]

theorem length_mergeBookmarksFrom (allPages : List String) (src : NotesData) (bm : List Bool) :
    (mergeBookmarksFrom allPages src bm).length = bm.length := by
  rw [mergeBookmarksFrom]
  cases src.bookmarks with
  | none => rfl
  | some sbs =>
    apply length_foldl_preserve
    intro acc p
    cases allPages.findIdx? (fun q => q == p.2) with
    | none => rfl
    | some newIdx =>
      dsimp only
      split <;> simp

/-- A concrete canonical document, used by witnesses and counterexamples. -/
def sampleDoc (pages : List String) (lastModified : Int) (currentPage : Int) : NotesData :=
  { version := 2
    lastModified := lastModified
    deviceId := "dev-a"
    state := .editor
    currentPage := currentPage
    pages := pages
    bookmarks := some (List.replicate pages.length false)
    metadata := { totalPages := (pages.length : Int), createdAt := 1,
                  syncStatus := some .synced, fileModTime := none } }

/-- C3 counterexample: the claimed lower bound
`max(len(local.pages), len(remote.pages)) <= len(merge(local,remote).pages)`
fails when one input repeats a page: local pages `["A","A"]` and remote
pages `[]` merge to a single page. -/
theorem C3_counterexample :
    ¬ (max (sampleDoc ["A", "A"] 1 0).pages.length (sampleDoc [] 1 0).pages.length ≤
        (mergeNotes "dev-a" 5 (sampleDoc ["A", "A"] 1 0) (sampleDoc [] 1 0)).pages.length) := by
  decide

/-- C3 (amended): for all documents, the merged page list has length at most
`len(local.pages) + len(remote.pages)`; the claimed lower bound
`max(len(local.pages), len(remote.pages))` additionally holds whenever each
input's page list is free of internal duplicates. -/
theorem C3_merge_union_bounds (dev : String) (now : Int) (localData remoteData : NotesData) :
    (mergeNotes dev now localData remoteData).pages.length ≤
        localData.pages.length + remoteData.pages.length ∧
      (localData.pages.Nodup → remoteData.pages.Nodup →
        max localData.pages.length remoteData.pages.length ≤
          (mergeNotes dev now localData remoteData).pages.length) := by
  constructor
  · have h := length_dedupKeepFirst_le (localData.pages ++ remoteData.pages)
    simpa [mergeNotes, List.length_append] using h
  · intro h1 h2
    have ha := length_le_dedupKeepFirst_append_left localData.pages remoteData.pages h1
    have hb := length_le_dedupKeepFirst_append_right localData.pages remoteData.pages h2
    simp only [mergeNotes]
    exact max_le ha hb

/-- C3 witness: the amended bounds at concrete duplicate-free inputs. -/
theorem C3_merge_union_bounds_witness :
    (mergeNotes "dev-a" 5 (sampleDoc ["A", "B"] 1 0) (sampleDoc ["B", "C"] 2 0)).pages.length ≤
        (sampleDoc ["A", "B"] 1 0).pages.length + (sampleDoc ["B", "C"] 2 0).pages.length ∧
      max (sampleDoc ["A", "B"] 1 0).pages.length (sampleDoc ["B", "C"] 2 0).pages.length ≤
        (mergeNotes "dev-a" 5 (sampleDoc ["A", "B"] 1 0) (sampleDoc ["B", "C"] 2 0)).pages.length :=
  ⟨(C3_merge_union_bounds "dev-a" 5 _ _).1,
   (C3_merge_union_bounds "dev-a" 5 _ _).2 (by decide) (by decide)⟩

/-- C4 counterexample: when both inputs have empty page lists the merged
`currentPage` is `min(cpi, -1) = -1`, not the claimed 0, because the source
clamps only from above (`Math.min(newerData.currentPage, allPages.length - 1)`). -/
theorem C4_counterexample :
    (mergeNotes "dev-a" 5 (sampleDoc [] 3 0) (sampleDoc [] 1 0)).pages = [] ∧
      (mergeNotes "dev-a" 5 (sampleDoc [] 3 0) (sampleDoc [] 1 0)).currentPage ≠ 0 := by
  decide

/-- C4 (amended): merge takes `uiState` and `currentPageIndex` from the
input with the strictly later `lastModified` (ties favour remote), and sets
`currentPageIndex = min(that value, len(mergedPages) - 1)` — an upper clamp
only; when the chosen value is nonnegative and the merged page list is
nonempty, the result does lie in `[0, len(mergedPages) - 1]`, but an empty
merged list yields `-1`, not 0. -/
theorem C4_merge_newer_fields (dev : String) (now : Int) (localData remoteData : NotesData) :
    (mergeNotes dev now localData remoteData).state =
        (if remoteData.lastModified < localData.lastModified then localData
         else remoteData).state ∧
      (mergeNotes dev now localData remoteData).currentPage =
        min (if remoteData.lastModified < localData.lastModified then localData
             else remoteData).currentPage
          (((mergeNotes dev now localData remoteData).pages.length : Int) - 1) ∧
      (0 ≤ (if remoteData.lastModified < localData.lastModified then localData
            else remoteData).currentPage →
        (mergeNotes dev now localData remoteData).pages ≠ [] →
        0 ≤ (mergeNotes dev now localData remoteData).currentPage ∧
          (mergeNotes dev now localData remoteData).currentPage <
            ((mergeNotes dev now localData remoteData).pages.length : Int)) := by
  refine ⟨rfl, rfl, ?_⟩
  intro h1 h2
  have hlen : 0 < (mergeNotes dev now localData remoteData).pages.length :=
    List.length_pos.mpr h2
  have hlen' : (1 : Int) ≤ ((mergeNotes dev now localData remoteData).pages.length : Int) := by
    exact_mod_cast hlen
  have hcp : (mergeNotes dev now localData remoteData).currentPage =
      min (if remoteData.lastModified < localData.lastModified then localData
           else remoteData).currentPage
        (((mergeNotes dev now localData remoteData).pages.length : Int) - 1) := rfl
  rw [hcp]
  constructor
  · exact le_min h1 (by omega)
  · exact lt_of_le_of_lt (min_le_right _ _) (by omega)

/-- C4 witness: at concrete inputs with a nonempty merged list, the merged
`currentPage` lies within range. -/
theorem C4_merge_newer_fields_witness :
    0 ≤ (mergeNotes "dev-a" 5 (sampleDoc ["A"] 1 0) (sampleDoc ["B"] 2 0)).currentPage ∧
      (mergeNotes "dev-a" 5 (sampleDoc ["A"] 1 0) (sampleDoc ["B"] 2 0)).currentPage <
        (((mergeNotes "dev-a" 5 (sampleDoc ["A"] 1 0) (sampleDoc ["B"] 2 0)).pages.length : Int)) :=
  (C4_merge_newer_fields "dev-a" 5 _ _).2.2 (by decide) (by decide)

/-- C8: the merged page list is exactly the first-occurrence subsequence of
iterating local pages then remote pages, and on the spec's concrete example
local `["A","B"]` with remote `["B","C"]` merges to `["A","B","C"]`. -/
theorem C8_merge_pages_first_occurrence (dev : String) (now : Int)
    (localData remoteData : NotesData) :
    (mergeNotes dev now localData remoteData).pages =
        specFirstOccurrence (localData.pages ++ remoteData.pages) ∧
      (mergeNotes "dev-a" 5 (sampleDoc ["A", "B"] 1 0) (sampleDoc ["B", "C"] 2 0)).pages =
        ["A", "B", "C"] := by
  constructor
  · simpa [mergeNotes] using dedupKeepFirst_eq_spec (localData.pages ++ remoteData.pages)
  · decide

/-- C9: when both inputs carry the same `lastModified` instant, the strict
comparison `localTime > remoteTime` is false, so `uiState` and
`currentPageIndex` (before the upper clamp) are taken from the remote
document. -/
theorem C9_merge_tie_prefers_remote (dev : String) (now : Int) (localData remoteData : NotesData)
    (h : localData.lastModified = remoteData.lastModified) :
    (mergeNotes dev now localData remoteData).state = remoteData.state ∧
      (mergeNotes dev now localData remoteData).currentPage =
        min remoteData.currentPage
          (((mergeNotes dev now localData remoteData).pages.length : Int) - 1) := by
  have hnot : ¬ (localData.lastModified > remoteData.lastModified) := by
    rw [h]
    exact lt_irrefl _
  constructor
  · show (if localData.lastModified > remoteData.lastModified then localData
          else remoteData).state = remoteData.state
    rw [if_neg hnot]
  · show min (if localData.lastModified > remoteData.lastModified then localData
          else remoteData).currentPage _ = _
    rw [if_neg hnot]
    rfl

/-- C9 witness: a concrete tie (`lastModified = 4` on both sides) where the
merged `currentPage` is remote's page index 1. -/
theorem C9_merge_tie_prefers_remote_witness :
    (mergeNotes "dev-a" 9 (sampleDoc ["A"] 4 0) (sampleDoc ["B", "C"] 4 1)).state =
        (sampleDoc ["B", "C"] 4 1).state ∧
      (mergeNotes "dev-a" 9 (sampleDoc ["A"] 4 0) (sampleDoc ["B", "C"] 4 1)).currentPage =
        min (sampleDoc ["B", "C"] 4 1).currentPage
          (((mergeNotes "dev-a" 9 (sampleDoc ["A"] 4 0)
              (sampleDoc ["B", "C"] 4 1)).pages.length : Int) - 1) :=
  C9_merge_tie_prefers_remote "dev-a" 9 _ _ (by decide)

/-! ## BackupManager: `createBackup` / `cleanupOldBackups`

Both StorageService variants contain these two methods with identical
bodies, so a single transcription serves both. -/

/-- `backup-<timestamp>.json`; the ISO timestamp (colons and dots replaced)
is modelled by the integer clock value. -/
def backupFileName (now : Int) : String :=
  "backup-" ++ toString now ++ ".json"

/-- The `cleanupOldBackups` selection: `file.startsWith('backup-') &&
file.endsWith('.json')`, phrased over the character list so that concrete
instances evaluate in the kernel. -/
def isBackupFile (name : String) : Bool :=
  "backup-".toList.isPrefixOf name.toList && ".json".toList.isSuffixOf name.toList

/-- `fs.promises.copyFile` into a directory: replaces any entry of the same
name; the copy's mtime is the time of the call. -/
def upsertEntry (dir : List BackupEntry) (e : BackupEntry) : List BackupEntry :=
  dir.filter (fun x => !(x.name == e.name)) ++ [e]

/-- The comparator `(a, b) => b.stat.mtime.getTime() - a.stat.mtime.getTime()`:
descending modification time. -/
def newerFirst (a b : BackupEntry) : Prop :=
  b.mtime ≤ a.mtime

instance : DecidableRel newerFirst :=
  fun a b => decidable_of_iff (b.mtime ≤ a.mtime) Iff.rfl

instance : IsTotal BackupEntry newerFirst :=
  ⟨fun a b => le_total b.mtime a.mtime⟩

instance : IsTrans BackupEntry newerFirst :=
  ⟨fun _ _ _ h1 h2 => le_trans h2 h1⟩

/-- `backupFiles.sort(desc mtime).slice(config.backup.maxBackups)`: the
files beyond the `maxBackups` newest (JS `sort` is stable, as is
`insertionSort`). -/
def backupsToDelete (maxBackups : Nat) (dir : List BackupEntry) : List BackupEntry :=
  (List.insertionSort newerFirst (dir.filter (fun e => isBackupFile e.name))).drop maxBackups

/-- `StorageService.cleanupOldBackups`: unlink every file slated for
deletion (deletion is by path, i.e. by name). -/
def cleanupOldBackups (maxBackups : Nat) (dir : List BackupEntry) : List BackupEntry :=
  dir.filter (fun e => !((backupsToDelete maxBackups dir).any (fun d => d.name == e.name)))

/-- `StorageService.createBackup`: `null` when backups are disabled or no
notes file exists; otherwise copy the notes file to `backup-<timestamp>.json`
in the backup directory and prune old backups. -/
def createBackup (cfg : Config) (fs : FsState) (now : Int) : FsState × Option String :=
  if !cfg.backupEnabled then (fs, none)
  else
    match fs.notesFile with
    | none => (fs, none)
    | some file =>
      let name := backupFileName now
      let dir1 := upsertEntry fs.backupDir ⟨name, now, file.json⟩
      ({ fs with backupDir := cleanupOldBackups cfg.maxBackups dir1 }, some name)

theorem filter_comm_bool {α : Type} (p q : α → Bool) (l : List α) :
    (l.filter p).filter q = (l.filter q).filter p := by
  rw [List.filter_filter, List.filter_filter]
  exact List.filter_congr fun a _ => Bool.and_comm _ _

/-- Entries slated for deletion filter to nothing: each matches itself. -/
theorem filter_keep_drop_nil (m : Nat) (S : List BackupEntry) :
    (S.drop m).filter (fun e => !((S.drop m).any (fun d => d.name == e.name))) = [] := by
  rw [List.filter_eq_nil_iff]
  intro e he
  have hany : (S.drop m).any (fun d => d.name == e.name) = true :=
    List.any_eq_true.mpr ⟨e, he, by simp⟩
  simp [hany]

/-- At most `m` entries of `S` survive the pruning filter. -/
theorem prune_length_le (m : Nat) (S : List BackupEntry) :
    (S.filter (fun e => !((S.drop m).any (fun d => d.name == e.name)))).length ≤ m := by
  have h0 : S.filter (fun e => !((S.drop m).any (fun d => d.name == e.name))) =
      (S.take m).filter (fun e => !((S.drop m).any (fun d => d.name == e.name))) ++
        (S.drop m).filter (fun e => !((S.drop m).any (fun d => d.name == e.name))) := by
    rw [← List.filter_append, List.take_append_drop]
  rw [h0, filter_keep_drop_nil, List.append_nil]
  calc ((S.take m).filter _).length ≤ (S.take m).length := List.length_filter_le _ _
    _ ≤ m := by rw [List.length_take]; exact min_le_left _ _

/-- Every survivor of the pruning filter sits among the first `m` entries of
`S`; if `S` is sorted newest-first, its mtime is at least that of every
deleted entry. -/
theorem prune_kept_newest (m : Nat) (S : List BackupEntry)
    (hsort : List.Sorted newerFirst S)
    (e : BackupEntry)
    (he : e ∈ S.filter (fun x => !((S.drop m).any (fun d => d.name == x.name))))
    (d : BackupEntry) (hd : d ∈ S.drop m) :
    d.mtime ≤ e.mtime := by
  have hpairAll : List.Pairwise newerFirst (S.take m ++ S.drop m) := by
    rw [List.take_append_drop]
    exact hsort
  have hpair : ∀ x ∈ S.take m, ∀ y ∈ S.drop m, newerFirst x y :=
    (List.pairwise_append.mp hpairAll).2.2
  obtain ⟨heS, hpe⟩ := List.mem_filter.mp he
  have hnot : ∀ d' ∈ S.drop m, d'.name ≠ e.name := by
    intro d' hd' hname
    have hany : (S.drop m).any (fun d => d.name == e.name) = true :=
      List.any_eq_true.mpr ⟨d', hd', by simp [hname]⟩
    simp [hany] at hpe
  have heTake : e ∈ S.take m := by
    have : e ∈ S.take m ++ S.drop m := by
      rw [List.take_append_drop]
      exact heS
    rcases List.mem_append.mp this with h | h
    · exact h
    · exact absurd rfl (hnot e h)
  exact hpair e heTake d hd

/-- An entry of `S` whose name no survivor carries must itself be among the
dropped entries, provided names are unique in `S`. -/
theorem prune_deleted_in_drop (m : Nat) (S : List BackupEntry)
    (hnames : (S.map BackupEntry.name).Nodup)
    (d : BackupEntry) (hdS : d ∈ S)
    (hgone : ∀ e' ∈ S.filter (fun x => !((S.drop m).any (fun dd => dd.name == x.name))),
      e'.name ≠ d.name) :
    d ∈ S.drop m := by
  have hsplit : d ∈ S.take m ++ S.drop m := by
    rw [List.take_append_drop]
    exact hdS
  rcases List.mem_append.mp hsplit with hTake | hDrop
  · by_cases hp : ((S.drop m).any (fun dd => dd.name == d.name)) = true
    · obtain ⟨d2, hd2, hbeq⟩ := List.any_eq_true.mp hp
      have hnameEq : d2.name = d.name := by simpa using hbeq
      have : d2 = d :=
        List.inj_on_of_nodup_map hnames (List.drop_subset m S hd2) hdS hnameEq
      exact this ▸ hd2
    · have hkept : d ∈ S.filter (fun x => !((S.drop m).any (fun dd => dd.name == x.name))) :=
        List.mem_filter.mpr ⟨hdS, by simp [hp]⟩
      exact absurd rfl (hgone d hkept)
  · exact hDrop

/-- C7: a successful `createBackup()` (backups enabled, notes file present,
unique file names in the backup directory) leaves at most `maxBackups`
`backup-*.json` files, and every surviving backup file is at least as new
as every backup file it pruned away (pruning is by name; the freshly
written `backup-<timestamp>.json` is excluded from the "pruned" side, since
overwriting it is not pruning); moreover, concretely, with `maxBackups = 2`
three sequential backups at times 1 < 2 < 3 leave exactly the backups
stamped 2 and 3. -/
theorem C7_backup_rotation (cfg : Config) (fs : FsState) (now : Int) (fs' : FsState) (p : String)
    (hnames : (fs.backupDir.map BackupEntry.name).Nodup)
    (h : createBackup cfg fs now = (fs', some p)) :
    ((fs'.backupDir.filter (fun e => isBackupFile e.name)).length ≤ cfg.maxBackups ∧
      ∀ e ∈ fs'.backupDir, isBackupFile e.name = true →
        ∀ d ∈ fs.backupDir, isBackupFile d.name = true → d.name ≠ p →
          (∀ e' ∈ fs'.backupDir, e'.name ≠ d.name) → d.mtime ≤ e.mtime) ∧
      (((createBackup ⟨true, 2, .manual⟩
          ((createBackup ⟨true, 2, .manual⟩
            ((createBackup ⟨true, 2, .manual⟩
              ⟨some ⟨.canonical (sampleDoc ["A"] 1 0), 1⟩, []⟩ 1).1) 2).1) 3).1).backupDir =
        [⟨backupFileName 2, 2, .canonical (sampleDoc ["A"] 1 0)⟩,
         ⟨backupFileName 3, 3, .canonical (sampleDoc ["A"] 1 0)⟩]) := by
  refine ⟨?_, by decide⟩
  rw [createBackup] at h
  split at h
  · simp at h
  · split at h
    · simp at h
    · rename_i file _
      rw [Prod.mk.injEq] at h
      obtain ⟨h1, h2⟩ := h
      injection h2 with h2
      subst h1
      subst h2
      set dir1 := upsertEntry fs.backupDir ⟨backupFileName now, now, file.json⟩ with hdir1
      set S := List.insertionSort newerFirst (dir1.filter (fun e => isBackupFile e.name)) with hS
      have hdel : backupsToDelete cfg.maxBackups dir1 = S.drop cfg.maxBackups := rfl
      have hclean : cleanupOldBackups cfg.maxBackups dir1 =
          dir1.filter (fun e => !((S.drop cfg.maxBackups).any (fun d => d.name == e.name))) := by
        rw [cleanupOldBackups, hdel]
      have hpermS : List.Perm S (dir1.filter (fun e => isBackupFile e.name)) :=
        List.perm_insertionSort newerFirst _
      constructor
      · show ((cleanupOldBackups cfg.maxBackups dir1).filter
            (fun e => isBackupFile e.name)).length ≤ cfg.maxBackups
        rw [hclean, filter_comm_bool]
        rw [(hpermS.symm.filter _).length_eq]
        exact prune_length_le _ _
      · intro e he hbe d hd hbd hdp hgone
        -- d survives the copy step (its name differs from the new backup's)
        have hdDir1 : d ∈ dir1 := by
          rw [hdir1, upsertEntry]
          exact List.mem_append_left _ (List.mem_filter.mpr ⟨hd, by simp [hdp]⟩)
        have hdB : d ∈ dir1.filter (fun e => isBackupFile e.name) :=
          List.mem_filter.mpr ⟨hdDir1, hbd⟩
        have hdS : d ∈ S := hpermS.mem_iff.mpr hdB
        -- names stay unique after the copy step
        have hnames1 : (dir1.map BackupEntry.name).Nodup := by
          rw [hdir1, upsertEntry, List.map_append, List.nodup_append]
          refine ⟨(hnames.sublist (List.Sublist.map _ (List.filter_sublist _))), by simp, ?_⟩
          intro a ha hb
          simp only [List.map_cons, List.map_nil, List.mem_singleton] at hb
          obtain ⟨x, hx, hax⟩ := List.mem_map.mp ha
          obtain ⟨_, hxname⟩ := List.mem_filter.mp hx
          subst hax
          rw [hb] at hxname
          simp at hxname
        have hnamesB : ((dir1.filter (fun e => isBackupFile e.name)).map BackupEntry.name).Nodup :=
          hnames1.sublist (List.Sublist.map _ (List.filter_sublist _))
        have hnamesS : (S.map BackupEntry.name).Nodup :=
          ((hpermS.map BackupEntry.name).nodup_iff).mpr hnamesB
        -- transfer the "no survivor carries d's name" hypothesis to S
        have hgoneS : ∀ e' ∈ S.filter
            (fun x => !((S.drop cfg.maxBackups).any (fun dd => dd.name == x.name))),
            e'.name ≠ d.name := by
          intro e' he'
          obtain ⟨he'S, hpe'⟩ := List.mem_filter.mp he'
          have he'B := hpermS.mem_iff.mp he'S
          obtain ⟨he'dir1, _⟩ := List.mem_filter.mp he'B
          refine hgone e' ?_
          show e' ∈ cleanupOldBackups cfg.maxBackups dir1
          rw [hclean]
          exact List.mem_filter.mpr ⟨he'dir1, hpe'⟩
        have hdDrop : d ∈ S.drop cfg.maxBackups :=
          prune_deleted_in_drop cfg.maxBackups S hnamesS d hdS hgoneS
        -- the surviving entry e sits among the newest maxBackups entries
        have heClean : e ∈ cleanupOldBackups cfg.maxBackups dir1 := he
        rw [hclean] at heClean
        obtain ⟨heDir1, hpe⟩ := List.mem_filter.mp heClean
        have heB : e ∈ dir1.filter (fun e => isBackupFile e.name) :=
          List.mem_filter.mpr ⟨heDir1, hbe⟩
        have heS : e ∈ S := hpermS.mem_iff.mpr heB
        have heSfilter : e ∈ S.filter
            (fun x => !((S.drop cfg.maxBackups).any (fun dd => dd.name == x.name))) :=
          List.mem_filter.mpr ⟨heS, hpe⟩
        exact prune_kept_newest cfg.maxBackups S
          (List.sorted_insertionSort newerFirst _) e heSfilter d hdDrop

/-- C7 witness: the rotation bound applied to a concrete successful backup
call, plus the concrete three-call rotation. -/
theorem C7_backup_rotation_witness :
    ((((createBackup ⟨true, 2, .manual⟩
          ⟨some ⟨.canonical (sampleDoc ["A"] 1 0), 1⟩, []⟩ 1).1).backupDir.filter
        (fun e => isBackupFile e.name)).length ≤ 2) ∧
      (((createBackup ⟨true, 2, .manual⟩
          ((createBackup ⟨true, 2, .manual⟩
            ((createBackup ⟨true, 2, .manual⟩
              ⟨some ⟨.canonical (sampleDoc ["A"] 1 0), 1⟩, []⟩ 1).1) 2).1) 3).1).backupDir =
        [⟨backupFileName 2, 2, .canonical (sampleDoc ["A"] 1 0)⟩,
         ⟨backupFileName 3, 3, .canonical (sampleDoc ["A"] 1 0)⟩]) :=
  have happ := C7_backup_rotation ⟨true, 2, .manual⟩
    ⟨some ⟨.canonical (sampleDoc ["A"] 1 0), 1⟩, []⟩ 1
    (createBackup ⟨true, 2, .manual⟩ ⟨some ⟨.canonical (sampleDoc ["A"] 1 0), 1⟩, []⟩ 1).1
    (backupFileName 1) (by simp) rfl
  ⟨happ.1.1, happ.2⟩

/-! ## PersistenceStore: `loadNotes` / `saveNotes` (newer variant),
`toggleBookmark`, `setBookmarks`; `MigrationService.createDefaultNotes`;
older-variant `saveNotes`. -/

/-- The `version` field of whatever object was parsed. -/
def jsonVersion : FileJson → Option Int
  | .canonical d => some d.version
  | .legacy l => l.version

/-- `!parsed.version || parsed.version === 1`: absent, 0 (falsy) or 1. -/
def isLegacyVersion : Option Int → Bool
  | none => true
  | some v => v == 0 || v == 1

/-- The cast `parsed as LegacyNotesData`: reads `state`, `currentPage`,
`pages` off the parsed object (both shapes carry them). -/
def asLegacyData : FileJson → LegacyNotesData
  | .canonical d =>
      { state := d.state, currentPage := d.currentPage, pages := d.pages,
        version := some d.version }
  | .legacy l => l

/-- `pre-migration-<timestamp>.json`. -/
def preMigrationName (now : Int) : String :=
  "pre-migration-" ++ toString now ++ ".json"

/-- `StorageService.convertLegacyData`: version 2, fields copied, all-false
bookmarks sized to the pages, fresh metadata with `syncStatus: 'pending'`. -/
def convertLegacyData (deviceId : String) (now : Int) (legacyData : LegacyNotesData) : NotesData :=
  { version := 2
    lastModified := now
    deviceId := deviceId
    state := legacyData.state
    currentPage := legacyData.currentPage
    pages := legacyData.pages
    bookmarks := some (List.replicate legacyData.pages.length false)
    metadata := { totalPages := (legacyData.pages.length : Int), createdAt := now,
                  syncStatus := some .pending, fileModTime := none } }

/-- Negation of `!notesData.bookmarks || notesData.bookmarks.length !==
notesData.pages.length`: the bookmark array exists and matches the page
count. -/
def bookmarksLenOk (nd : NotesData) : Bool :=
  match nd.bookmarks with
  | none => false
  | some bs => bs.length == nd.pages.length

/-- `!notesData.metadata.fileModTime`: absent or 0 (falsy). -/
def fileModTimeFalsy : Option Int → Bool
  | none => true
  | some v => v == 0

/-- The write tail of the newer `saveNotes`, shared by every non-conflicting
path: create a backup, stamp `lastModified` / `deviceId` /
`metadata.totalPages`, write the file, re-stat it, update the watermark and
`metadata.fileModTime`. The written JSON is the stamped document BEFORE the
`fileModTime` update (the source mutates `notesData.metadata.fileModTime`
only after `writeFile`). -/
def saveWrite (cfg : Config) (dev : String) (now : Int) (fs : FsState) (notesData : NotesData) :
    Store × FsState × Except EngineError NotesData :=
  let fs2 := (createBackup cfg fs now).1
  let stamped : NotesData :=
    { notesData with
      lastModified := now
      deviceId := dev
      metadata := { notesData.metadata with totalPages := (notesData.pages.length : Int) } }
  (⟨now⟩, { fs2 with notesFile := some ⟨.canonical stamped, now⟩ },
    .ok { stamped with metadata := { stamped.metadata with fileModTime := some now } })

mutual

/-- `StorageService.loadNotes` (newer variant). `none` when the file is
absent (ENOENT); the legacy branch backs the original bytes up as
`pre-migration-<ts>.json`, converts, persists and returns the migrated
document WITHOUT touching the watermark (the source returns before the
`lastKnownModTime` assignment); the canonical branch updates the watermark,
defaults `metadata.fileModTime`, and self-heals a missing or mismatched
bookmark array by re-saving. A legacy-shaped object whose version is not
falsy/1 fails `isValidNotesData` (it lacks `lastModified`, `deviceId`,
`metadata`); a canonical-shaped object always passes it. -/
def loadNotesF : Nat → Config → String → Int → Store → FsState →
    Store × FsState × Except EngineError (Option NotesData)
  | 0, _, _, _, st, fs => (st, fs, .error .outOfFuel)
  | fuel+1, cfg, dev, now, st, fs =>
    match fs.notesFile with
    | none => (st, fs, .ok none)
    | some file =>
      if isLegacyVersion (jsonVersion file.json) then
        let fs1 : FsState :=
          { fs with backupDir :=
              upsertEntry fs.backupDir ⟨preMigrationName now, now, file.json⟩ }
        let migrated := convertLegacyData dev now (asLegacyData file.json)
        (st, { fs1 with notesFile := some ⟨.canonical migrated, now⟩ }, .ok (some migrated))
      else
        match file.json with
        | .legacy _ => (st, fs, .error .invalidFormat)
        | .canonical nd =>
          let st1 : Store := ⟨file.mtimeMs⟩
          let nd1 := if fileModTimeFalsy nd.metadata.fileModTime then
              { nd with metadata := { nd.metadata with fileModTime := some file.mtimeMs } }
            else nd
          if bookmarksLenOk nd1 then (st1, fs, .ok (some nd1))
          else
            let nd2 := { nd1 with bookmarks := some (List.replicate nd1.pages.length false) }
            match saveNotesF fuel cfg dev now st1 fs nd2 false with
            | (st2, fs2, .ok saved) => (st2, fs2, .ok (some saved))
            | (st2, fs2, .error e) => (st2, fs2, .error e)

/-- `StorageService.saveNotes` (newer variant). With the conflict check
active (not skipped, watermark set): a missing file is not a conflict; a
file newer than the watermark fails with `CONFLICT_DETECTED` under the
`manual` policy, while under `timestamp` the external document is re-loaded
and compared — strictly newer external `lastModified` fails with
`CONFLICT_EXTERNAL_NEWER`, otherwise the save proceeds. -/
def saveNotesF : Nat → Config → String → Int → Store → FsState → NotesData → Bool →
    Store × FsState × Except EngineError NotesData
  | 0, _, _, _, st, fs, _, _ => (st, fs, .error .outOfFuel)
  | fuel+1, cfg, dev, now, st, fs, notesData, skipConflictCheck =>
    if !skipConflictCheck && decide (0 < st.lastKnownModTime) then
      match fs.notesFile with
      | none => saveWrite cfg dev now fs notesData
      | some file =>
        if file.mtimeMs > st.lastKnownModTime then
          match cfg.conflictResolution with
          | .timestamp =>
            match loadNotesF fuel cfg dev now st fs with
            | (st1, fs1, .ok (some externalData)) =>
              if externalData.lastModified > notesData.lastModified then
                (st1, fs1, .error .conflictExternalNewer)
              else saveWrite cfg dev now fs1 notesData
            | (_st1, fs1, .ok none) => saveWrite cfg dev now fs1 notesData
            | (st1, fs1, .error e) => (st1, fs1, .error e)
          | .manual => (st, fs, .error .conflictDetected)
        else saveWrite cfg dev now fs notesData
    else saveWrite cfg dev now fs notesData

end

/-- `StorageService.toggleBookmark`: load (absent → null), rebuild a
missing/mismatched bookmark array, reject an out-of-range index by
returning null WITHOUT saving, otherwise set or flip the flag, save, and
return the document as mutated by the save. -/
def toggleBookmark (fuel : Nat) (cfg : Config) (dev : String) (now : Int) (st : Store)
    (fs : FsState) (pageIndex : Int) (value : Option Bool) :
    Store × FsState × Except EngineError (Option NotesData) :=
  match loadNotesF fuel cfg dev now st fs with
  | (st1, fs1, .error e) => (st1, fs1, .error e)
  | (st1, fs1, .ok none) => (st1, fs1, .ok none)
  | (st1, fs1, .ok (some notesData)) =>
    let nd1 := if bookmarksLenOk notesData then notesData
      else { notesData with bookmarks := some (List.replicate notesData.pages.length false) }
    if pageIndex < 0 ∨ (nd1.pages.length : Int) ≤ pageIndex then
      (st1, fs1, .ok none)
    else
      let bs := nd1.bookmarks.getD []
      let newVal := match value with
        | some v => v
        | none => !(bs.getD pageIndex.toNat false)
      let nd2 := { nd1 with bookmarks := some (bs.set pageIndex.toNat newVal) }
      match saveNotesF fuel cfg dev now st1 fs1 nd2 false with
      | (st2, fs2, .ok saved) => (st2, fs2, .ok (some saved))
      | (st2, fs2, .error e) => (st2, fs2, .error e)

/-- `StorageService.setBookmarks`: same loading/resizing as
`toggleBookmark`; out-of-range indices are silently skipped; one save. -/
def setBookmarks (fuel : Nat) (cfg : Config) (dev : String) (now : Int) (st : Store)
    (fs : FsState) (indices : List Int) (value : Bool) :
    Store × FsState × Except EngineError (Option NotesData) :=
  match loadNotesF fuel cfg dev now st fs with
  | (st1, fs1, .error e) => (st1, fs1, .error e)
  | (st1, fs1, .ok none) => (st1, fs1, .ok none)
  | (st1, fs1, .ok (some notesData)) =>
    let nd1 := if bookmarksLenOk notesData then notesData
      else { notesData with bookmarks := some (List.replicate notesData.pages.length false) }
    let bs := indices.foldl (fun acc idx =>
        if 0 ≤ idx ∧ idx < (nd1.pages.length : Int) then acc.set idx.toNat value else acc)
      (nd1.bookmarks.getD [])
    let nd2 := { nd1 with bookmarks := some bs }
    match saveNotesF fuel cfg dev now st1 fs1 nd2 false with
    | (st2, fs2, .ok saved) => (st2, fs2, .ok (some saved))
    | (st2, fs2, .error e) => (st2, fs2, .error e)

/-- `MigrationService.createDefaultNotes` (migrationService.ts): the default
document used when no legacy data exists or migration fails; its object
literal carries NO `bookmarks` field. -/
def createDefaultNotes (now : Int) : NotesData :=
  { version := 2
    lastModified := now
    deviceId := ""
    state := .editor
    currentPage := 0
    pages := [""]
    bookmarks := none
    metadata := { totalPages := 1, createdAt := now, syncStatus := some .synced,
                  fileModTime := none } }

/-- `StorageService.saveNotes` of the OLDER variant: ensure directory,
backup, stamp `lastModified` / `deviceId` / `metadata.totalPages`, write —
no conflict check, no re-stat, no watermark bookkeeping. -/
def saveNotesOld (cfg : Config) (dev : String) (now : Int) (fs : FsState)
    (notesData : NotesData) : FsState × NotesData :=
  let fs1 := (createBackup cfg fs now).1
  let stamped : NotesData :=
    { notesData with
      lastModified := now
      deviceId := dev
      metadata := { notesData.metadata with totalPages := (notesData.pages.length : Int) } }
  ({ fs1 with notesFile := some ⟨.canonical stamped, now⟩ }, stamped)

/-- A concrete legacy-format document (spec scenario 1). -/
def sampleLegacy : LegacyNotesData :=
  { state := .editor, currentPage := 0, pages := ["hello"], version := some 1 }

/-- C2: with the watermark set (`t0 > 0`), the file's on-disk mtime
`t1 > t0`, the `manual` policy and no skip flag, `saveNotes` fails with
`CONFLICT_DETECTED` before any backup or write: the returned state is
exactly the input state, so the on-disk file content is unchanged. -/
theorem C2_manual_conflict_blocks_save (fuel : Nat) (cfg : Config) (dev : String) (now : Int)
    (st : Store) (fs : FsState) (file : NotesFile) (doc : NotesData)
    (hpol : cfg.conflictResolution = .manual)
    (ht0 : 0 < st.lastKnownModTime)
    (hfile : fs.notesFile = some file)
    (ht1 : st.lastKnownModTime < file.mtimeMs) :
    saveNotesF (fuel + 1) cfg dev now st fs doc false = (st, fs, .error .conflictDetected) := by
  rw [saveNotesF, hfile]
  simp [ht0, ht1, hpol]

/-- C2 witness: a concrete conflicting save under the manual policy. -/
theorem C2_manual_conflict_blocks_save_witness :
    saveNotesF 2 ⟨true, 10, .manual⟩ "dev-a" 9 ⟨1⟩
        ⟨some ⟨.canonical (sampleDoc ["A"] 1 0), 5⟩, []⟩ (sampleDoc ["B"] 2 0) false =
      (⟨1⟩, ⟨some ⟨.canonical (sampleDoc ["A"] 1 0), 5⟩, []⟩, .error .conflictDetected) :=
  C2_manual_conflict_blocks_save 1 ⟨true, 10, .manual⟩ "dev-a" 9 ⟨1⟩
    ⟨some ⟨.canonical (sampleDoc ["A"] 1 0), 5⟩, []⟩ ⟨.canonical (sampleDoc ["A"] 1 0), 5⟩
    (sampleDoc ["B"] 2 0) rfl (by decide) rfl (by decide)

/-- C5: loading a legacy file (version absent or 1) first writes a
`pre-migration-<timestamp>.json` backup holding the original bytes, then
persists and returns the migrated document: schemaVersion 2, `uiState`,
`currentPageIndex` and `pages` copied unchanged, all-false bookmarks sized
to the pages, and `metadata.totalPages = len(pages)`. -/
theorem C5_legacy_migration (fuel : Nat) (cfg : Config) (dev : String) (now : Int)
    (st : Store) (fs : FsState) (l : LegacyNotesData) (mt : Int)
    (hfile : fs.notesFile = some ⟨.legacy l, mt⟩)
    (hver : l.version = none ∨ l.version = some 1) :
    loadNotesF (fuel + 1) cfg dev now st fs =
      (st,
        { notesFile := some ⟨.canonical
            { version := 2, lastModified := now, deviceId := dev, state := l.state,
              currentPage := l.currentPage, pages := l.pages,
              bookmarks := some (List.replicate l.pages.length false),
              metadata := { totalPages := (l.pages.length : Int), createdAt := now,
                            syncStatus := some .pending, fileModTime := none } }, now⟩,
          backupDir := upsertEntry fs.backupDir ⟨preMigrationName now, now, .legacy l⟩ },
        .ok (some
          { version := 2, lastModified := now, deviceId := dev, state := l.state,
            currentPage := l.currentPage, pages := l.pages,
            bookmarks := some (List.replicate l.pages.length false),
            metadata := { totalPages := (l.pages.length : Int), createdAt := now,
                          syncStatus := some .pending, fileModTime := none } })) := by
  have hleg : isLegacyVersion (jsonVersion (.legacy l)) = true := by
    rcases hver with h | h <;> simp [jsonVersion, isLegacyVersion, h]
  rw [loadNotesF, hfile]
  simp [hleg, convertLegacyData, asLegacyData]

/-- C5 witness: the spec's scenario 1 file `{pages:["hello"], uiState:
editing, currentPageIndex:0, schemaVersion:1}` migrates as claimed. -/
theorem C5_legacy_migration_witness :
    loadNotesF 1 ⟨true, 10, .manual⟩ "dev-a" 7 ⟨0⟩ ⟨some ⟨.legacy sampleLegacy, 3⟩, []⟩ =
      (⟨0⟩,
        { notesFile := some ⟨.canonical
            { version := 2, lastModified := 7, deviceId := "dev-a", state := sampleLegacy.state,
              currentPage := sampleLegacy.currentPage, pages := sampleLegacy.pages,
              bookmarks := some (List.replicate sampleLegacy.pages.length false),
              metadata := { totalPages := (sampleLegacy.pages.length : Int), createdAt := 7,
                            syncStatus := some .pending, fileModTime := none } }, 7⟩,
          backupDir := upsertEntry [] ⟨preMigrationName 7, 7, .legacy sampleLegacy⟩ },
        .ok (some
          { version := 2, lastModified := 7, deviceId := "dev-a", state := sampleLegacy.state,
            currentPage := sampleLegacy.currentPage, pages := sampleLegacy.pages,
            bookmarks := some (List.replicate sampleLegacy.pages.length false),
            metadata := { totalPages := (sampleLegacy.pages.length : Int), createdAt := 7,
                          syncStatus := some .pending, fileModTime := none } })) :=
  C5_legacy_migration 0 ⟨true, 10, .manual⟩ "dev-a" 7 ⟨0⟩
    ⟨some ⟨.legacy sampleLegacy, 3⟩, []⟩ sampleLegacy 3 rfl (Or.inr rfl)

/-- C10: for the same input document, device id and clock value, the newer
variant's `saveNotes` with `skipConflictCheck = true` produces exactly the
filesystem state of the older variant's `saveNotes` — in particular the
written notes-file JSON (hence the bytes) and the backup activity are
identical — and beyond that differs only in setting the watermark to the
new mtime and stamping `metadata.fileModTime` onto the returned document,
both of which happen after the write. -/
theorem C10_save_variants_equiv (fuel : Nat) (cfg : Config) (dev : String) (now : Int)
    (st : Store) (fs : FsState) (doc : NotesData) :
    saveNotesF (fuel + 1) cfg dev now st fs doc true =
      (⟨now⟩, (saveNotesOld cfg dev now fs doc).1,
        .ok { (saveNotesOld cfg dev now fs doc).2 with
          metadata := { (saveNotesOld cfg dev now fs doc).2.metadata with
            fileModTime := some now } }) := by
  rw [saveNotesF]
  simp [saveWrite, saveNotesOld]

theorem saveWrite_ok_shape (cfg : Config) (dev : String) (now : Int) (fs : FsState)
    (doc : NotesData) (st' : Store) (fs' : FsState) (saved : NotesData)
    (h : saveWrite cfg dev now fs doc = (st', fs', .ok saved)) :
    saved.bookmarks = doc.bookmarks ∧ saved.pages = doc.pages := by
  rw [saveWrite, Prod.mk.injEq, Prod.mk.injEq] at h
  obtain ⟨-, -, h3⟩ := h
  injection h3 with h3
  rw [← h3]
  exact ⟨rfl, rfl⟩

/-- Every successful exit of `saveNotes` returns the input document with
only `lastModified`, `deviceId` and `metadata` restamped: `bookmarks` and
`pages` are untouched. -/
theorem saveNotesF_ok_shape (fuel : Nat) (cfg : Config) (dev : String) (now : Int)
    (st : Store) (fs : FsState) (doc : NotesData) (skip : Bool)
    (st' : Store) (fs' : FsState) (saved : NotesData)
    (h : saveNotesF fuel cfg dev now st fs doc skip = (st', fs', .ok saved)) :
    saved.bookmarks = doc.bookmarks ∧ saved.pages = doc.pages := by
  cases fuel with
  | zero => simp [saveNotesF] at h
  | succ n =>
    rw [saveNotesF] at h
    split at h
    · split at h
      · exact saveWrite_ok_shape _ _ _ _ _ _ _ _ h
      · split at h
        · split at h
          · split at h
            · split at h
              · simp at h
              · exact saveWrite_ok_shape _ _ _ _ _ _ _ _ h
            · exact saveWrite_ok_shape _ _ _ _ _ _ _ _ h
            · simp at h
          · simp at h
        · exact saveWrite_ok_shape _ _ _ _ _ _ _ _ h
    · exact saveWrite_ok_shape _ _ _ _ _ _ _ _ h

/-- Every document `loadNotes` hands back satisfies the bookmark invariant:
the migrated branch builds all-false bookmarks, the canonical branch either
finds a valid array or rebuilds one and re-saves. -/
theorem loadNotesF_ok_bookmarks (fuel : Nat) (cfg : Config) (dev : String) (now : Int)
    (st : Store) (fs : FsState) (st' : Store) (fs' : FsState) (nd : NotesData)
    (h : loadNotesF fuel cfg dev now st fs = (st', fs', .ok (some nd))) :
    bookmarksLenOk nd = true := by
  cases fuel with
  | zero => simp [loadNotesF] at h
  | succ n =>
    rw [loadNotesF] at h
    split at h
    · simp at h
    · split at h
      · rw [Prod.mk.injEq, Prod.mk.injEq] at h
        obtain ⟨-, -, h3⟩ := h
        injection h3 with h3
        injection h3 with h3
        rw [← h3]
        simp [convertLegacyData, bookmarksLenOk]
      · split at h
        · simp at h
        · rename_i nd0 _
          split at h <;>
          · simp only [] at h
            split at h
            · rename_i hok2
              rw [Prod.mk.injEq, Prod.mk.injEq] at h
              obtain ⟨-, -, h3⟩ := h
              injection h3 with h3
              injection h3 with h3
              rw [← h3]
              exact hok2
            · split at h
              · rename_i st2 fs2 saved hsave
                rw [Prod.mk.injEq, Prod.mk.injEq] at h
                obtain ⟨-, -, h3⟩ := h
                injection h3 with h3
                injection h3 with h3
                obtain ⟨hbk, hpg⟩ := saveNotesF_ok_shape _ _ _ _ _ _ _ _ _ _ _ hsave
                rw [← h3]
                simp [bookmarksLenOk, hbk, hpg]
              · simp at h

/-- The canonical, already-valid load path: watermark set to the file's
mtime, `fileModTime` defaulted when falsy, document otherwise returned
as stored. -/
theorem loadNotesF_canonical (fuel : Nat) (cfg : Config) (dev : String) (now : Int)
    (st : Store) (fs : FsState) (file : NotesFile) (nd : NotesData)
    (hfile : fs.notesFile = some file)
    (hjson : file.json = .canonical nd)
    (hver : isLegacyVersion (some nd.version) = false)
    (hbm : bookmarksLenOk nd = true) :
    loadNotesF (fuel + 1) cfg dev now st fs =
      (⟨file.mtimeMs⟩, fs, .ok (some
        (if fileModTimeFalsy nd.metadata.fileModTime then
          { nd with metadata := { nd.metadata with fileModTime := some file.mtimeMs } }
         else nd))) := by
  have hleg : isLegacyVersion (jsonVersion (.canonical nd)) = false := by
    simpa [jsonVersion] using hver
  have hbm1 : bookmarksLenOk (if fileModTimeFalsy nd.metadata.fileModTime then
      { nd with metadata := { nd.metadata with fileModTime := some file.mtimeMs } }
      else nd) = true := by
    split
    · exact hbm
    · exact hbm
  rw [loadNotesF, hfile]
  simp only [hjson, hleg, Bool.false_eq_true, if_false]
  simp only [hbm1, if_true]

/-- C6 counterexample: on a stored two-page document, `toggleBookmark 5`
returns null (the "absent" signal), not the unchanged document state the
claim describes. -/
theorem C6_counterexample :
    (toggleBookmark 2 ⟨true, 10, .manual⟩ "dev-a" 9 ⟨0⟩
        ⟨some ⟨.canonical (sampleDoc ["p0", "p1"] 1 0), 3⟩, []⟩ 5 none).2.2 =
      .ok none ∧
      (Except.ok (none : Option NotesData) : Except EngineError (Option NotesData)) ≠
        .ok (some (sampleDoc ["p0", "p1"] 1 0)) := by
  constructor
  · decide
  · decide

/-- C6 (amended): for an index outside `[0, len(pages))` on an existing,
valid stored document, `toggleBookmark` performs no save (the filesystem —
notes file and backup directory — is returned unchanged) and returns null
(the absent signal), not the unchanged document; only the in-memory
watermark is refreshed by the preceding load. -/
theorem C6_toggle_out_of_range (fuel : Nat) (cfg : Config) (dev : String) (now : Int)
    (st : Store) (fs : FsState) (file : NotesFile) (nd : NotesData) (pageIndex : Int)
    (hfile : fs.notesFile = some file)
    (hjson : file.json = .canonical nd)
    (hver : isLegacyVersion (some nd.version) = false)
    (hbm : bookmarksLenOk nd = true)
    (hidx : pageIndex < 0 ∨ (nd.pages.length : Int) ≤ pageIndex) :
    toggleBookmark (fuel + 1) cfg dev now st fs pageIndex none =
      (⟨file.mtimeMs⟩, fs, .ok none) := by
  rw [toggleBookmark, loadNotesF_canonical fuel cfg dev now st fs file nd hfile hjson hver hbm]
  have hbm1 : bookmarksLenOk (if fileModTimeFalsy nd.metadata.fileModTime then
      { nd with metadata := { nd.metadata with fileModTime := some file.mtimeMs } }
      else nd) = true := by
    split
    · exact hbm
    · exact hbm
  have hpg : (if fileModTimeFalsy nd.metadata.fileModTime then
      { nd with metadata := { nd.metadata with fileModTime := some file.mtimeMs } }
      else nd).pages = nd.pages := by
    split
    · rfl
    · rfl
  simp only [hbm1, if_true, hpg]
  rw [if_pos hidx]

/-- C6 witness: the out-of-range no-op at a concrete stored document. -/
theorem C6_toggle_out_of_range_witness :
    toggleBookmark 2 ⟨true, 10, .manual⟩ "dev-a" 9 ⟨0⟩
        ⟨some ⟨.canonical (sampleDoc ["p0", "p1"] 1 0), 3⟩, []⟩ 5 none =
      (⟨3⟩, ⟨some ⟨.canonical (sampleDoc ["p0", "p1"] 1 0), 3⟩, []⟩, .ok none) :=
  C6_toggle_out_of_range 1 ⟨true, 10, .manual⟩ "dev-a" 9 ⟨0⟩
    ⟨some ⟨.canonical (sampleDoc ["p0", "p1"] 1 0), 3⟩, []⟩
    ⟨.canonical (sampleDoc ["p0", "p1"] 1 0), 3⟩ (sampleDoc ["p0", "p1"] 1 0) 5
    rfl rfl (by decide) (by decide) (by decide)

/-- The ensured bookmark array (`bookmarks` kept when already matching,
rebuilt all-false otherwise) has exactly one flag per page. -/
theorem resized_bookmarks_len (notesData : NotesData) :
    (((if bookmarksLenOk notesData then notesData
        else { notesData with
          bookmarks := some (List.replicate notesData.pages.length false) }).bookmarks).getD
      []).length =
      (if bookmarksLenOk notesData then notesData
        else { notesData with
          bookmarks := some (List.replicate notesData.pages.length false) }).pages.length := by
  split
  · rename_i hok
    cases hbm : notesData.bookmarks with
    | none => simp [bookmarksLenOk, hbm] at hok
    | some bs =>
      simp [bookmarksLenOk, hbm] at hok
      simp [hbm, hok]
  · simp

theorem length_foldl_setIdx (pagesLen : Nat) (value : Bool) (indices : List Int)
    (acc : List Bool) :
    (indices.foldl (fun acc idx =>
        if 0 ≤ idx ∧ idx < (pagesLen : Int) then acc.set idx.toNat value else acc) acc).length =
      acc.length := by
  refine length_foldl_preserve _ ?_ indices acc
  intro acc a
  split <;> simp

theorem toggleBookmark_ok_bookmarks (fuel : Nat) (cfg : Config) (dev : String) (now : Int)
    (st st' : Store) (fs fs' : FsState) (pageIndex : Int) (value : Option Bool) (nd : NotesData)
    (h : toggleBookmark fuel cfg dev now st fs pageIndex value = (st', fs', .ok (some nd))) :
    bookmarksLenOk nd = true := by
  rw [toggleBookmark] at h
  split at h
  · simp at h
  · simp at h
  · rename_i st1 fs1 notesData heq
    simp only [] at h
    split at h
    · rename_i hok
      split at h
      · simp at h
      · split at h
        · rename_i st2 fs2 saved hsave
          rw [Prod.mk.injEq, Prod.mk.injEq] at h
          obtain ⟨-, -, h3⟩ := h
          injection h3 with h3
          injection h3 with h3
          obtain ⟨hbk, hpg⟩ := saveNotesF_ok_shape _ _ _ _ _ _ _ _ _ _ _ hsave
          rw [← h3]
          cases hdb : notesData.bookmarks with
          | none => simp [bookmarksLenOk, hdb] at hok
          | some bs =>
            simp [bookmarksLenOk, hdb] at hok
            simp [bookmarksLenOk, hbk, hpg, hdb, hok]
        · simp at h
    · split at h
      · simp at h
      · split at h
        · rename_i st2 fs2 saved hsave
          rw [Prod.mk.injEq, Prod.mk.injEq] at h
          obtain ⟨-, -, h3⟩ := h
          injection h3 with h3
          injection h3 with h3
          obtain ⟨hbk, hpg⟩ := saveNotesF_ok_shape _ _ _ _ _ _ _ _ _ _ _ hsave
          rw [← h3]
          simp [bookmarksLenOk, hbk, hpg]
        · simp at h

theorem setBookmarks_ok_bookmarks (fuel : Nat) (cfg : Config) (dev : String) (now : Int)
    (st st' : Store) (fs fs' : FsState) (indices : List Int) (value : Bool) (nd : NotesData)
    (h : setBookmarks fuel cfg dev now st fs indices value = (st', fs', .ok (some nd))) :
    bookmarksLenOk nd = true := by
  rw [setBookmarks] at h
  split at h
  · simp at h
  · simp at h
  · rename_i st1 fs1 notesData heq
    simp only [] at h
    split at h
    · rename_i st2 fs2 saved hsave
      rw [Prod.mk.injEq, Prod.mk.injEq] at h
      obtain ⟨-, -, h3⟩ := h
      injection h3 with h3
      injection h3 with h3
      obtain ⟨hbk, hpg⟩ := saveNotesF_ok_shape _ _ _ _ _ _ _ _ _ _ _ hsave
      rw [← h3]
      by_cases hko : bookmarksLenOk notesData = true
      · simp only [hko, if_true] at hbk hpg
        cases hdb : notesData.bookmarks with
        | none => simp [bookmarksLenOk, hdb] at hko
        | some bs =>
          have hlen : bs.length = notesData.pages.length := by
            simpa [bookmarksLenOk, hdb] using hko
          simp [bookmarksLenOk, hbk, hpg, hdb, length_foldl_setIdx, hlen]
      · simp only [hko, if_false] at hbk hpg
        simp [bookmarksLenOk, hbk, hpg, length_foldl_setIdx]
    · simp at h

theorem merge_bookmarksLenOk (dev : String) (now : Int) (localData remoteData : NotesData) :
    bookmarksLenOk (mergeNotes dev now localData remoteData) = true := by
  simp [mergeNotes, bookmarksLenOk, length_mergeBookmarksFrom]

/-- C1 counterexample: the migration fallback's default document
(`MigrationService.createDefaultNotes`, returned directly when migration
fails and saved-and-returned when no legacy data exists) has one page but
no bookmarks sequence at all. -/
theorem C1_counterexample :
    (createDefaultNotes 7).bookmarks = none ∧ (createDefaultNotes 7).pages.length = 1 ∧
      bookmarksLenOk (createDefaultNotes 7) = false := by
  decide

/-- C1 (amended): every document returned by `loadNotes` (including the
migration path), `toggleBookmark`, `setBookmarks` and `mergeNotes` carries
a bookmarks array whose length equals the page count, and `saveNotes`
preserves the invariant; the migration fallback's default document is the
exception — it carries no bookmarks array (as does `restoreFromBackup`,
which returns the backup's content unchecked in this respect). -/
theorem C1_bookmark_invariant :
    (∀ (fuel : Nat) (cfg : Config) (dev : String) (now : Int) (st st' : Store)
        (fs fs' : FsState) (nd : NotesData),
      loadNotesF fuel cfg dev now st fs = (st', fs', .ok (some nd)) →
        bookmarksLenOk nd = true) ∧
      (∀ (fuel : Nat) (cfg : Config) (dev : String) (now : Int) (st st' : Store)
          (fs fs' : FsState) (pageIndex : Int) (value : Option Bool) (nd : NotesData),
        toggleBookmark fuel cfg dev now st fs pageIndex value = (st', fs', .ok (some nd)) →
          bookmarksLenOk nd = true) ∧
      (∀ (fuel : Nat) (cfg : Config) (dev : String) (now : Int) (st st' : Store)
          (fs fs' : FsState) (indices : List Int) (value : Bool) (nd : NotesData),
        setBookmarks fuel cfg dev now st fs indices value = (st', fs', .ok (some nd)) →
          bookmarksLenOk nd = true) ∧
      (∀ (dev : String) (now : Int) (localData remoteData : NotesData),
        bookmarksLenOk (mergeNotes dev now localData remoteData) = true) ∧
      (∀ (fuel : Nat) (cfg : Config) (dev : String) (now : Int) (st st' : Store)
          (fs fs' : FsState) (doc saved : NotesData) (skip : Bool),
        bookmarksLenOk doc = true →
          saveNotesF fuel cfg dev now st fs doc skip = (st', fs', .ok saved) →
            bookmarksLenOk saved = true) := by
  refine ⟨?_, ?_, ?_, ?_, ?_⟩
  · intro fuel cfg dev now st st' fs fs' nd h
    exact loadNotesF_ok_bookmarks fuel cfg dev now st fs st' fs' nd h
  · intro fuel cfg dev now st st' fs fs' pageIndex value nd h
    exact toggleBookmark_ok_bookmarks fuel cfg dev now st st' fs fs' pageIndex value nd h
  · intro fuel cfg dev now st st' fs fs' indices value nd h
    exact setBookmarks_ok_bookmarks fuel cfg dev now st st' fs fs' indices value nd h
  · intro dev now localData remoteData
    exact merge_bookmarksLenOk dev now localData remoteData
  · intro fuel cfg dev now st st' fs fs' doc saved skip hdoc hsave
    obtain ⟨hbk, hpg⟩ := saveNotesF_ok_shape _ _ _ _ _ _ _ _ _ _ _ hsave
    cases hdb : doc.bookmarks with
    | none => simp [bookmarksLenOk, hdb] at hdoc
    | some bs =>
      simp [bookmarksLenOk, hdb] at hdoc
      simp [bookmarksLenOk, hbk, hpg, hdb, hdoc]

/-- C1 witness: the invariant at a concrete merge and a concrete load. -/
theorem C1_bookmark_invariant_witness :
    bookmarksLenOk (mergeNotes "dev-a" 5 (sampleDoc ["A"] 1 0) (sampleDoc ["B"] 2 0)) = true ∧
      bookmarksLenOk { sampleDoc ["p0"] 1 0 with
        metadata := { (sampleDoc ["p0"] 1 0).metadata with fileModTime := some 3 } } = true :=
  ⟨C1_bookmark_invariant.2.2.2.1 "dev-a" 5 _ _,
   C1_bookmark_invariant.1 1 ⟨true, 10, .manual⟩ "dev-a" 9 ⟨0⟩ ⟨3⟩
     ⟨some ⟨.canonical (sampleDoc ["p0"] 1 0), 3⟩, []⟩
     ⟨some ⟨.canonical (sampleDoc ["p0"] 1 0), 3⟩, []⟩ _ (by decide)⟩

end SidebarNotes
